import Mathlib

/-!
Shallow embedding of `deepctr/sequence.py`.

The module defines four Keras layers: `SequencePoolingLayer`,
`AttentionSequencePoolingLayer`, `BiLSTM` and `AttentionSequencePoolingLayerv2`.
Tensors are embedded as lists (when shape facts matter) or as functions out of
`Fin` types (when summation arithmetic matters); float32 arithmetic is idealised
as exact `ℚ` / `ℝ` arithmetic.  The external scoring sub-network
(`LocalActivationUnit`, `NaiveActivationUnit`, not part of this file's source)
is treated as an uninterpreted function parameter, as the spec directs.
-/

/-- Configuration values that appear in a layer's `get_config` dictionary. -/
inductive CVal where
  | s (v : String)
  | b (v : Bool)
  | n (v : ℕ)
  | q (v : ℚ)
  | ns (v : List ℕ)
  | os (v : Option String)
deriving DecidableEq, BEq

/-- Python-side error raised by a constructor on an invalid enumerated option
(`ValueError` in the source; the spec calls it `ConfigurationError`). -/
inductive ConfigError where
  | invalidOption (msg : String)
deriving DecidableEq, BEq

/-- Python-side error raised when a local variable is read before assignment
(`UnboundLocalError`). -/
inductive CallError where
  | unboundLocalVariable
deriving DecidableEq, BEq

/-! ## SequencePoolingLayer : configuration -/

/-- The state a `SequencePoolingLayer` instance holds after `__init__`
(lines 27-36 of the source): `self.mode`, `self.eps = 1e-8`,
`self.supports_masking`. -/
structure SequencePoolingLayer where
  mode : String
  supports_masking : Bool
  eps : ℚ
deriving DecidableEq

/-- `SequencePoolingLayer.__init__`: raises unless `mode` is one of
`sum`, `mean`, `max`; stores the arguments. -/
def SequencePoolingLayer.init (mode : String) (supports_masking : Bool) :
    Except ConfigError SequencePoolingLayer :=
  if mode ∈ ["sum", "mean", "max"] then
    Except.ok { mode := mode, supports_masking := supports_masking, eps := 1 / 100000000 }
  else
    Except.error (ConfigError.invalidOption "mode must be sum or mean")

/-- `SequencePoolingLayer.get_config` (lines 86-89): the layer-specific part of
the config dictionary (the Keras base-class entries are disjoint from these
keys and are omitted). -/
def SequencePoolingLayer.get_config (l : SequencePoolingLayer) : List (String × CVal) :=
  [("mode", CVal.s l.mode), ("supports_masking", CVal.b l.supports_masking)]

/-! ## AttentionSequencePoolingLayer : configuration -/

/-- State held by `AttentionSequencePoolingLayer.__init__` (lines 120-127):
no validation is performed, all four arguments are stored. -/
structure AttentionSequencePoolingLayer where
  hidden_size : List ℕ
  activation : String
  weight_normalization : Bool
  supports_masking : Bool
deriving DecidableEq

/-- `AttentionSequencePoolingLayer.__init__`: stores the arguments, never
raises. -/
def AttentionSequencePoolingLayer.init (hidden_size : List ℕ) (activation : String)
    (weight_normalization : Bool) (supports_masking : Bool) :
    Except ConfigError AttentionSequencePoolingLayer :=
  Except.ok { hidden_size := hidden_size, activation := activation,
              weight_normalization := weight_normalization,
              supports_masking := supports_masking }

/-- `AttentionSequencePoolingLayer.get_config` (lines 188-193). -/
def AttentionSequencePoolingLayer.get_config (l : AttentionSequencePoolingLayer) :
    List (String × CVal) :=
  [("hidden_size", CVal.ns l.hidden_size), ("activation", CVal.s l.activation),
   ("weight_normalization", CVal.b l.weight_normalization),
   ("supports_masking", CVal.b l.supports_masking)]

/-! ## BiLSTM : configuration -/

/-- State held by `BiLSTM.__init__` (lines 219-233).  Python's `merge_mode`
may be the value `None`, embedded as `Option.none`; the string modes are
`some`. -/
structure BiLSTM where
  units : ℕ
  layers : ℕ
  res_layers : ℕ
  dropout : ℚ
  merge_mode : Option String
deriving DecidableEq

/-- `BiLSTM.__init__`: raises unless `merge_mode` is one of
`'fw','bw','sum','mul','ave','concat',None`; stores the arguments. -/
def BiLSTM.init (units layers res_layers : ℕ) (dropout : ℚ)
    (merge_mode : Option String) : Except ConfigError BiLSTM :=
  if merge_mode ∈ [some "fw", some "bw", some "sum", some "mul", some "ave",
                   some "concat", none] then
    Except.ok { units := units, layers := layers, res_layers := res_layers,
                dropout := dropout, merge_mode := merge_mode }
  else
    Except.error (ConfigError.invalidOption "Invalid merge mode.")

/-- `BiLSTM.get_config` (lines 300-305). -/
def BiLSTM.get_config (l : BiLSTM) : List (String × CVal) :=
  [("units", CVal.n l.units), ("layers", CVal.n l.layers),
   ("res_layers", CVal.n l.res_layers), ("dropout", CVal.q l.dropout),
   ("merge_mode", CVal.os l.merge_mode)]

/-! ## AttentionSequencePoolingLayerv2 : configuration -/

/-- State held by `AttentionSequencePoolingLayerv2.__init__` (lines 335-342):
all four arguments are stored, with no validation of any kind. -/
structure AttentionSequencePoolingLayerv2 where
  hidden_size : List ℕ
  activation : String
  weight_normalization : Bool
  sim_type : String
deriving DecidableEq

/-- `AttentionSequencePoolingLayerv2.__init__`: stores the arguments (including
an arbitrary `sim_type`), never raises. -/
def AttentionSequencePoolingLayerv2.init (hidden_size : List ℕ) (activation : String)
    (weight_normalization : Bool) (sim_type : String) :
    Except ConfigError AttentionSequencePoolingLayerv2 :=
  Except.ok { hidden_size := hidden_size, activation := activation,
              weight_normalization := weight_normalization, sim_type := sim_type }

/-- `AttentionSequencePoolingLayerv2.build` (lines 344-366): every shape check
in the source is commented out, so `build` accepts any input shape.  An input
shape is a list of per-tensor dimension lists. -/
def AttentionSequencePoolingLayerv2.build (_ : AttentionSequencePoolingLayerv2)
    (_ : List (List ℕ)) : Except ConfigError Unit :=
  Except.ok ()

/-- `AttentionSequencePoolingLayerv2.get_config` (lines 428-433).  Note the
source stores only `hidden_size`, `activation` and `weight_normalization`:
`sim_type` is absent. -/
def AttentionSequencePoolingLayerv2.get_config (l : AttentionSequencePoolingLayerv2) :
    List (String × CVal) :=
  [("hidden_size", CVal.ns l.hidden_size), ("activation", CVal.s l.activation),
   ("weight_normalization", CVal.b l.weight_normalization)]

/-! ## SequencePoolingLayer : call (explicit-length mode, `supports_masking=False`)

One batch row is a sequence `seq : List (List ℚ)` of `T` time positions, each a
vector of `embedding_size` entries, together with its valid length.  The batch
dimension is a `List` of rows (`call` maps `callRow`). -/

/-- `tf.sequence_mask(len, T)` for a scalar length, as a float row of `T`
entries: position `t` maps to `1` iff `t < len` (the transpose and tile in the
source only reshape this row for broadcasting). -/
def sequence_mask (len T : ℕ) : List ℚ :=
  (List.range T).map (fun t => if t < len then 1 else 0)

/-- `uiseq_embed_list *= mask` (line 64): multiply each time position of the
sequence by its mask entry. -/
def maskSeq (seq : List (List ℚ)) (len : ℕ) : List (List ℚ) :=
  List.zipWith (fun row m => row.map (· * m)) seq (sequence_mask len seq.length)

/-- `tf.reduce_sum(hist, 1)` over the time axis of a `(T, E)` block: elementwise
sum of the rows (the sum of zero rows is the zero vector of width `E`). -/
def reduce_sum0 (E : ℕ) (rows : List (List ℚ)) : List ℚ :=
  rows.foldr (List.zipWith (· + ·)) (List.replicate E 0)

/-- `tf.reduce_max(hist, 1)` over the time axis of a nonempty `(T, E)` block:
elementwise maximum of the rows. -/
def reduce_max0 : List (List ℚ) → List ℚ
  | [] => []
  | r :: rs => rs.foldl (List.zipWith max) r

/-- `SequencePoolingLayer.call` on one batch row in explicit-length mode
(lines 53-75): mask the sequence, then `max` → elementwise max keeping the
singleton time dimension, otherwise sum over time (and for `mean` divide by
`length + self.eps`), then `expand_dims` to shape `(1, E)`. -/
def SequencePoolingLayer.callRow (l : SequencePoolingLayer) (E : ℕ)
    (seq : List (List ℚ)) (len : ℕ) : List (List ℚ) :=
  let masked := maskSeq seq len
  if l.mode = "max" then
    [reduce_max0 masked]
  else
    let hist := reduce_sum0 E masked
    let hist := if l.mode = "mean" then hist.map (· / ((len : ℚ) + l.eps)) else hist
    [hist]

/-- `SequencePoolingLayer.call` over a whole batch: the row-wise map of
`callRow` over `(seq_value, seq_len)` pairs. -/
def SequencePoolingLayer.call (l : SequencePoolingLayer) (E : ℕ)
    (seqs : List (List (List ℚ))) (lens : List ℕ) : List (List (List ℚ)) :=
  List.zipWith (SequencePoolingLayer.callRow l E) seqs lens

/-! ## Attention layers : call pipelines over `ℝ`

One batch row: raw attention scores and masks are indexed by time `Fin T`, key
vectors by `Fin T × Fin E`.  The `(B,1,T)` / `(B,T,1)` orientations both
collapse to `Fin T → ℝ` per row; the source's `tf.transpose` steps are the
identity in this per-row view. -/

/-- `tf.sequence_mask(keys_length, hist_len)` per row: position `t` is valid
iff `t < len`. -/
def key_maskRow (len : ℕ) {T : ℕ} : Fin T → Bool :=
  fun t => decide (t.val < len)

/-- The `paddings` tensor (lines 168-171 / 407-410):
`ones_like * (-2**32+1)` when `weight_normalization` else `zeros_like`. -/
noncomputable def paddingsRow (wn : Bool) {T : ℕ} : Fin T → ℝ :=
  if wn then (fun _ => -(2 ^ 32) + 1) else (fun _ => 0)

/-- `tf.where(key_masks, outputs, paddings)` applied per row (line 173 / 412). -/
noncomputable def maskedScoreRow (wn : Bool) {T : ℕ} (len : ℕ)
    (score : Fin T → ℝ) : Fin T → ℝ :=
  fun t => if key_maskRow len t then score t else paddingsRow wn t

/-- `tf.nn.softmax` over the time axis. -/
noncomputable def softmaxRow {T : ℕ} (x : Fin T → ℝ) : Fin T → ℝ :=
  fun t => Real.exp (x t) / ∑ u, Real.exp (x u)

/-- `AttentionSequencePoolingLayer.call`, lines 166-176, per batch row: the
attention weights right before the final `tf.matmul` with `keys`.  `score` is
the (transposed) output of the uninterpreted scoring network. -/
noncomputable def AttentionSequencePoolingLayer.attWeightsRow (wn : Bool) {T : ℕ}
    (len : ℕ) (score : Fin T → ℝ) : Fin T → ℝ :=
  let outputs := maskedScoreRow wn len score
  if wn then softmaxRow outputs else outputs

/-- `AttentionSequencePoolingLayer.call` per batch row (lines 148-180,
explicit-length mode): mask / optionally softmax the scores, then
`tf.matmul(outputs, keys)`. -/
noncomputable def AttentionSequencePoolingLayer.callRow (wn : Bool) {T E : ℕ}
    (len : ℕ) (score : Fin T → ℝ) (keys : Fin T → Fin E → ℝ) : Fin E → ℝ :=
  fun e => ∑ t, AttentionSequencePoolingLayer.attWeightsRow wn len score t * keys t e

/-- `AttentionSequencePoolingLayerv2.call`, lines 403-418, per batch row:
everything after the similarity branch.  `E` is `keys.get_shape()[-1]`, the
embedding width used in the `1/sqrt(E)` temperature scaling. -/
noncomputable def AttentionSequencePoolingLayerv2.postScoreRow (wn : Bool) (E : ℕ)
    {T : ℕ} (score : Fin T → ℝ) (len : ℕ) : Fin T → ℝ :=
  let attention_score := maskedScoreRow wn len score
  let attention_score := fun t => attention_score t / Real.sqrt E
  if wn then softmaxRow attention_score else attention_score

/-- `K.l2_normalize(x, axis=-1)`, i.e. `tf.nn.l2_normalize`:
`x / sqrt(max(sum(x^2), 1e-12))`. -/
noncomputable def l2_normalizeRow {E : ℕ} (x : Fin E → ℝ) : Fin E → ℝ :=
  fun e => x e / Real.sqrt (max (∑ i, x i ^ 2) (1 / 10 ^ 12))

/-- `cosine_distance` (lines 385-389): L2-normalize both vectors along the
embedding axis, then `K.mean` of the elementwise product along that axis. -/
noncomputable def cosine_distance {E : ℕ} (x y : Fin E → ℝ) : ℝ :=
  (∑ e, l2_normalizeRow x e * l2_normalizeRow y e) / E

/-- `AttentionSequencePoolingLayerv2.call` per batch row (lines 368-418) with
the two learned scoring collaborators (`nn` branch's `LocalActivationUnit`,
`mat` branch's `NaiveActivationUnit`) uninterpreted.  In the source,
`attention_score` is assigned only in the `nn` / `mat` / `cos` branches, so any
other `sim_type` raises `UnboundLocalError` at `tf.transpose(attention_score,..)`
-- modelled by the `Option` being `none`. -/
noncomputable def AttentionSequencePoolingLayerv2.callRow {T E : ℕ}
    (sim_type : String) (wn : Bool)
    (nnScore matScore : (Fin 1 → Fin E → ℝ) → (Fin T → Fin E → ℝ) → Fin T → ℝ)
    (queries : Fin 1 → Fin E → ℝ) (keys : Fin T → Fin E → ℝ) (len : ℕ) :
    Except CallError (Fin T → ℝ) :=
  let attention_score : Option (Fin T → ℝ) :=
    if sim_type = "nn" then some (nnScore queries keys)
    else if sim_type = "mat" then some (matScore queries keys)
    else if sim_type = "cos" then
      some (fun t => cosine_distance (fun e => queries 0 e) (fun e => keys t e))
    else none
  match attention_score with
  | none => Except.error CallError.unboundLocalVariable
  | some s => Except.ok (AttentionSequencePoolingLayerv2.postScoreRow wn E s len)

/-- Float32 machine epsilon, `2^-23`. -/
noncomputable def machineEps : ℝ := 1 / 2 ^ 23

/-! ## BiLSTM : call

One input is a `(T, D)` block, `List (List ℚ)`.  The per-layer LSTM cells are
uninterpreted functions `fw i`, `bw i` from blocks to blocks (for the backward
cell, its output is in reversed time order, as `go_backwards=True` produces,
and the `Lambda(K.reverse)` in the source re-reverses it). -/

/-- Elementwise `+` of two blocks (`output_fw += input_fw`). -/
def addT (a b : List (List ℚ)) : List (List ℚ) :=
  List.zipWith (List.zipWith (· + ·)) a b

/-- Elementwise `*` of two blocks. -/
def mulT (a b : List (List ℚ)) : List (List ℚ) :=
  List.zipWith (List.zipWith (· * ·)) a b

/-- One iteration of the layer loop in `BiLSTM.call` (lines 255-265): run both
directional cells, re-reverse the backward output in time, and add the residual
connection when `i >= layers - res_layers`. -/
def BiLSTM.step (fw bw : ℕ → List (List ℚ) → List (List ℚ))
    (layers res_layers i : ℕ) (p : List (List ℚ) × List (List ℚ)) :
    List (List ℚ) × List (List ℚ) :=
  let output_fw := fw i p.1
  let output_bw := (bw i p.2).reverse
  let output_fw := if layers - res_layers ≤ i then addT output_fw p.1 else output_fw
  let output_bw := if layers - res_layers ≤ i then addT output_bw p.2 else output_bw
  (output_fw, output_bw)

/-- The whole layer loop of `BiLSTM.call`: fold `step` over the layer indices,
starting from `(inputs, inputs)`. -/
def BiLSTM.loop (fw bw : ℕ → List (List ℚ) → List (List ℚ))
    (layers res_layers : ℕ) (inputs : List (List ℚ)) :
    List (List ℚ) × List (List ℚ) :=
  (List.range layers).foldl (fun p i => BiLSTM.step fw bw layers res_layers i p)
    (inputs, inputs)

/-- Result of `BiLSTM.call`: a single tensor, or (for `merge_mode=None`) the
pair `[output_fw, output_bw]`. -/
inductive BiOut where
  | single (t : List (List ℚ))
  | pair (fwd bwd : List (List ℚ))
deriving DecidableEq

/-- `BiLSTM.call` (lines 251-286): run the loop, then combine the two streams
per `merge_mode`, in the source's branch order.  A `merge_mode` outside the
seven alternatives would leave Python's `output` unbound (`none` here); the
constructor rules that out. -/
def BiLSTM.call (merge_mode : Option String)
    (fw bw : ℕ → List (List ℚ) → List (List ℚ)) (layers res_layers : ℕ)
    (inputs : List (List ℚ)) : Option BiOut :=
  let p := BiLSTM.loop fw bw layers res_layers inputs
  let output_fw := p.1
  let output_bw := p.2
  if merge_mode = some "fw" then some (BiOut.single output_fw)
  else if merge_mode = some "bw" then some (BiOut.single output_bw)
  else if merge_mode = some "concat" then
    some (BiOut.single (List.zipWith (· ++ ·) output_fw output_bw))
  else if merge_mode = some "sum" then some (BiOut.single (addT output_fw output_bw))
  else if merge_mode = some "ave" then
    some (BiOut.single ((addT output_fw output_bw).map (List.map (· / 2))))
  else if merge_mode = some "mul" then some (BiOut.single (mulT output_fw output_bw))
  else if merge_mode = none then some (BiOut.pair output_fw output_bw)
  else none

/-! ## List helper lemmas -/

/-- Members of a `zipWith` come from members of the two lists. -/
theorem mem_zipWith {α β γ : Type*} (f : α → β → γ) :
    ∀ (as : List α) (bs : List β) (c : γ), c ∈ List.zipWith f as bs →
      ∃ a ∈ as, ∃ b ∈ bs, c = f a b := by
  intro as
  induction as with
  | nil => intro bs c h; simp [List.zipWith] at h
  | cons a as ih =>
    intro bs c h
    cases bs with
    | nil => simp [List.zipWith] at h
    | cons b bs =>
      rw [List.zipWith_cons_cons] at h
      rcases List.mem_cons.mp h with h | h
      · exact ⟨a, by simp, b, by simp, h⟩
      · rcases ih bs c h with ⟨a1, ha, b1, hb, rfl⟩
        exact ⟨a1, by simp [ha], b1, by simp [hb], rfl⟩

theorem map_mul_zero (r : List ℚ) : r.map (· * 0) = List.replicate r.length 0 := by
  induction r with
  | nil => rfl
  | cons a r ih => simp [List.replicate_succ, ih]

theorem zipWith_add_replicate_zero (E : ℕ) :
    List.zipWith (· + ·) (List.replicate E (0 : ℚ)) (List.replicate E 0) =
      List.replicate E 0 := by
  induction E with
  | zero => rfl
  | succ n ih => simp [List.replicate_succ, ih]

/-! ## Masking lemmas -/

theorem maskSeq_cons (r : List ℚ) (rs : List (List ℚ)) (len : ℕ) :
    maskSeq (r :: rs) len =
      r.map (· * (if 0 < len then (1 : ℚ) else 0)) :: maskSeq rs (len - 1) := by
  unfold maskSeq sequence_mask
  simp only [List.length_cons, List.range_succ_eq_map, List.map_cons,
    List.zipWith_cons_cons, List.map_map]
  refine congrArg₂ List.cons rfl ?_
  have hfun : ((fun t => if t < len then (1 : ℚ) else 0) ∘ Nat.succ)
      = fun t => if t < len - 1 then (1 : ℚ) else 0 := by
    funext t
    rcases len with _ | l
    · simp
    · simp [Nat.succ_lt_succ_iff]
  rw [hfun]

theorem maskSeq_eq_take_append :
    ∀ (seq : List (List ℚ)) (len : ℕ), len ≤ seq.length →
      maskSeq seq len = seq.take len ++ (seq.drop len).map (fun r => r.map (· * 0)) := by
  intro seq
  induction seq with
  | nil =>
    intro len h
    have : len = 0 := Nat.le_zero.mp h
    subst this
    rfl
  | cons r rs ih =>
    intro len h
    rcases len with _ | l
    · rw [maskSeq_cons]
      have h0 : maskSeq rs 0 = rs.map (fun r => r.map (· * 0)) := by
        simpa using ih 0 (Nat.zero_le _)
      simp [h0]
    · rw [maskSeq_cons]
      have h1 : (0 : ℕ) < l + 1 := Nat.succ_pos l
      simp only [if_pos h1, mul_one, List.map_id', Nat.succ_sub_one,
        List.take_succ_cons, List.drop_succ_cons, List.cons_append]
      exact congrArg₂ List.cons rfl (ih l (Nat.succ_le_succ_iff.mp h))

theorem maskSeq_width {E : ℕ} {seq : List (List ℚ)} {len : ℕ}
    (hw : ∀ r ∈ seq, r.length = E) :
    ∀ r1 ∈ maskSeq seq len, r1.length = E := by
  intro r1 h
  rcases mem_zipWith _ _ _ _ h with ⟨row, hrow, m, _, rfl⟩
  simp [hw row hrow]

/-! ## reduce_sum0 lemmas -/

theorem reduce_sum0_zeros (E : ℕ) :
    ∀ (Z : List (List ℚ)), (∀ z ∈ Z, z = List.replicate E 0) →
      reduce_sum0 E Z = List.replicate E 0 := by
  intro Z
  induction Z with
  | nil => intro _; rfl
  | cons z Z ih =>
    intro h
    have hz := h z (by simp)
    have hZ : reduce_sum0 E Z = List.replicate E 0 := ih (fun w hw => h w (by simp [hw]))
    show List.zipWith (· + ·) z (reduce_sum0 E Z) = _
    rw [hz, hZ, zipWith_add_replicate_zero]

theorem reduce_sum0_append_zeros (E : ℕ) (A Z : List (List ℚ))
    (hZ : reduce_sum0 E Z = List.replicate E 0) :
    reduce_sum0 E (A ++ Z) = reduce_sum0 E A := by
  unfold reduce_sum0 at *
  rw [List.foldr_append, hZ]

theorem reduce_sum0_length (E : ℕ) :
    ∀ (rows : List (List ℚ)), (∀ r ∈ rows, r.length = E) →
      (reduce_sum0 E rows).length = E := by
  intro rows
  induction rows with
  | nil => intro _; simp [reduce_sum0]
  | cons r rs ih =>
    intro h
    show (List.zipWith (· + ·) r (reduce_sum0 E rs)).length = E
    rw [List.length_zipWith, h r (by simp), ih (fun w hw => h w (by simp [hw])),
      min_self]

/-- The central masked-sum identity: summing the masked sequence over the time
axis equals summing only the first `len` time positions. -/
theorem reduce_sum0_maskSeq (E : ℕ) (seq : List (List ℚ)) (len : ℕ)
    (hlen : len ≤ seq.length) (hw : ∀ r ∈ seq, r.length = E) :
    reduce_sum0 E (maskSeq seq len) = reduce_sum0 E (seq.take len) := by
  rw [maskSeq_eq_take_append seq len hlen]
  apply reduce_sum0_append_zeros
  apply reduce_sum0_zeros
  intro z hz
  rcases List.mem_map.mp hz with ⟨r, hr, rfl⟩
  rw [map_mul_zero, hw r (List.mem_of_mem_drop hr)]

/-! ## SequencePoolingLayer claim theorems -/

theorem callRow_sum_eq (sm : Bool) (e : ℚ) (E : ℕ) (seq : List (List ℚ)) (len : ℕ) :
    SequencePoolingLayer.callRow ⟨"sum", sm, e⟩ E seq len
      = [reduce_sum0 E (maskSeq seq len)] := by
  simp [SequencePoolingLayer.callRow]

theorem callRow_mean_eq (sm : Bool) (e : ℚ) (E : ℕ) (seq : List (List ℚ)) (len : ℕ) :
    SequencePoolingLayer.callRow ⟨"mean", sm, e⟩ E seq len
      = [(reduce_sum0 E (maskSeq seq len)).map (· / ((len : ℚ) + e))] := by
  simp [SequencePoolingLayer.callRow]

theorem callRow_max_eq (sm : Bool) (e : ℚ) (E : ℕ) (seq : List (List ℚ)) (len : ℕ) :
    SequencePoolingLayer.callRow ⟨"max", sm, e⟩ E seq len
      = [reduce_max0 (maskSeq seq len)] := by
  simp [SequencePoolingLayer.callRow]

/-- C1: for every batch and every row with `length ≤ max_length`,
`SequencePoolingLayer(mode=sum)` in explicit-length mode returns, at that row,
exactly the elementwise sum of the first `length` time positions; the result is
unchanged under any modification of the padded positions `t ≥ length`; and the
output has shape `(batch, 1, embedding_dim)`. -/
theorem C1_sum_pooling_exact (sm : Bool) (l : SequencePoolingLayer)
    (hl : SequencePoolingLayer.init "sum" sm = Except.ok l)
    (E : ℕ) (seq : List (List ℚ)) (len : ℕ)
    (hlen : len ≤ seq.length) (hw : ∀ r ∈ seq, r.length = E) :
    SequencePoolingLayer.callRow l E seq len = [reduce_sum0 E (seq.take len)]
    ∧ (∀ seq1 : List (List ℚ), len ≤ seq1.length → (∀ r ∈ seq1, r.length = E) →
        seq1.take len = seq.take len →
        SequencePoolingLayer.callRow l E seq1 len
          = SequencePoolingLayer.callRow l E seq len)
    ∧ (SequencePoolingLayer.callRow l E seq len).length = 1
    ∧ (∀ v ∈ SequencePoolingLayer.callRow l E seq len, v.length = E)
    ∧ (∀ (seqs : List (List (List ℚ))) (lens : List ℕ), seqs.length = lens.length →
        (∀ s ∈ seqs, ∀ r ∈ s, r.length = E) →
        (SequencePoolingLayer.call l E seqs lens).length = seqs.length
        ∧ ∀ out ∈ SequencePoolingLayer.call l E seqs lens,
            out.length = 1 ∧ ∀ v ∈ out, v.length = E) := by
  have hl1 : l = ⟨"sum", sm, 1 / 100000000⟩ := by
    unfold SequencePoolingLayer.init at hl
    rw [if_pos (by decide)] at hl
    cases hl; rfl
  subst hl1
  have hmain : SequencePoolingLayer.callRow ⟨"sum", sm, 1 / 100000000⟩ E seq len
      = [reduce_sum0 E (seq.take len)] := by
    rw [callRow_sum_eq, reduce_sum0_maskSeq E seq len hlen hw]
  have hwidth1 : ∀ (s : List (List ℚ)) (n : ℕ), (∀ r ∈ s, r.length = E) →
      ∀ v ∈ SequencePoolingLayer.callRow ⟨"sum", sm, 1 / 100000000⟩ E s n,
        v.length = E := by
    intro s n hws v hv
    rw [callRow_sum_eq] at hv
    rcases List.mem_singleton.mp hv with rfl
    exact reduce_sum0_length E _ (maskSeq_width hws)
  refine ⟨hmain, ?_, ?_, hwidth1 seq len hw, ?_⟩
  · intro seq1 hlen1 hw1 htake
    rw [callRow_sum_eq, callRow_sum_eq,
      reduce_sum0_maskSeq E seq1 len hlen1 hw1,
      reduce_sum0_maskSeq E seq len hlen hw, htake]
  · rw [callRow_sum_eq]; rfl
  · intro seqs lens hlens hws
    constructor
    · unfold SequencePoolingLayer.call
      rw [List.length_zipWith, hlens, min_self]
    · intro out hout
      rcases mem_zipWith _ _ _ _ hout with ⟨s, hs, n, _, rfl⟩
      constructor
      · rw [callRow_sum_eq]; rfl
      · exact hwidth1 s n (hws s hs)

/-- C6: `SequencePoolingLayer(mode=mean)` returns the masked time-axis sum
divided by `length + 1e-8`; for `length = 0` the output is the zero vector
(`sum/ε = 0/ε = 0`), in particular a finite value, never a division by zero.
(The float32 concern "not NaN/Inf" is idealised here as: the division is by the
strictly positive `len + 1e-8`, and the value is exactly `0`.) -/
theorem C6_mean_pooling (sm : Bool) (l : SequencePoolingLayer)
    (hl : SequencePoolingLayer.init "mean" sm = Except.ok l)
    (E : ℕ) (seq : List (List ℚ)) (len : ℕ)
    (hlen : len ≤ seq.length) (hw : ∀ r ∈ seq, r.length = E) :
    SequencePoolingLayer.callRow l E seq len
      = [(reduce_sum0 E (maskSeq seq len)).map (· / ((len : ℚ) + 1 / 100000000))]
    ∧ SequencePoolingLayer.callRow l E seq len
      = [(reduce_sum0 E (seq.take len)).map (· / ((len : ℚ) + 1 / 100000000))]
    ∧ (0 : ℚ) < (len : ℚ) + 1 / 100000000
    ∧ (len = 0 → SequencePoolingLayer.callRow l E seq len = [List.replicate E 0]) := by
  have hl1 : l = ⟨"mean", sm, 1 / 100000000⟩ := by
    unfold SequencePoolingLayer.init at hl
    rw [if_pos (by decide)] at hl
    cases hl; rfl
  subst hl1
  have h2 : SequencePoolingLayer.callRow ⟨"mean", sm, 1 / 100000000⟩ E seq len
      = [(reduce_sum0 E (seq.take len)).map (· / ((len : ℚ) + 1 / 100000000))] := by
    rw [callRow_mean_eq, reduce_sum0_maskSeq E seq len hlen hw]
  refine ⟨callRow_mean_eq sm _ E seq len, h2, by positivity, ?_⟩
  intro h0
  subst h0
  rw [h2]
  simp [reduce_sum0, List.map_replicate]

/-- C6 witness: a concrete batch row with `length = 2` and one with
`length = 0`. -/
theorem C6_mean_pooling_witness :
    (SequencePoolingLayer.init "mean" false
        = Except.ok ⟨"mean", false, 1 / 100000000⟩)
    ∧ SequencePoolingLayer.callRow ⟨"mean", false, 1 / 100000000⟩ 1 [[3], [5]] 2
      = [(reduce_sum0 1 ([[(3 : ℚ)], [5]].take 2)).map (· / ((2 : ℚ) + 1 / 100000000))]
    ∧ SequencePoolingLayer.callRow ⟨"mean", false, 1 / 100000000⟩ 1 [[3], [5]] 0
      = [List.replicate 1 0] := by
  have hinit : SequencePoolingLayer.init "mean" false
      = Except.ok ⟨"mean", false, 1 / 100000000⟩ := by
    unfold SequencePoolingLayer.init
    rw [if_pos (by decide)]
  exact ⟨hinit,
    (C6_mean_pooling false _ hinit 1 [[3], [5]] 2 (by decide) (by decide)).2.1,
    (C6_mean_pooling false _ hinit 1 [[3], [5]] 0 (by decide) (by decide)).2.2.2 rfl⟩

/-! ## reduce_max0 lemmas -/

theorem zipWith_max_replicate_zero (acc : List ℚ) (h : ∀ a ∈ acc, 0 ≤ a) :
    List.zipWith max acc (List.replicate acc.length 0) = acc := by
  induction acc with
  | nil => rfl
  | cons a as ih =>
    simp only [List.length_cons, List.replicate_succ, List.zipWith_cons_cons]
    rw [max_eq_left (h a (by simp)), ih (fun b hb => h b (by simp [hb]))]

theorem zipWith_max_replicate_self (E : ℕ) (v : ℚ) :
    List.zipWith max (List.replicate E v) (List.replicate E v) = List.replicate E v := by
  induction E with
  | zero => rfl
  | succ n ih => simp [List.replicate_succ, ih, max_self]

theorem foldl_max_zeros (E : ℕ) :
    ∀ (Z : List (List ℚ)) (acc : List ℚ), acc.length = E → (∀ a ∈ acc, 0 ≤ a) →
      (∀ z ∈ Z, z = List.replicate E 0) →
      Z.foldl (List.zipWith max) acc = acc := by
  intro Z
  induction Z with
  | nil => intro acc _ _ _; rfl
  | cons z Z ih =>
    intro acc hlen hpos hz
    show Z.foldl (List.zipWith max) (List.zipWith max acc z) = acc
    rw [hz z (by simp), ← hlen, zipWith_max_replicate_zero acc hpos]
    exact ih acc hlen hpos (fun w hw => hz w (by simp [hw]))

theorem foldl_max_props (E : ℕ) :
    ∀ (rows : List (List ℚ)) (acc : List ℚ), acc.length = E →
      (∀ a ∈ acc, 0 < a) → (∀ r ∈ rows, r.length = E) →
      (rows.foldl (List.zipWith max) acc).length = E
      ∧ ∀ a ∈ rows.foldl (List.zipWith max) acc, 0 < a := by
  intro rows
  induction rows with
  | nil => intro acc h1 h2 _; exact ⟨h1, h2⟩
  | cons r rows ih =>
    intro acc h1 h2 h3
    have hstep_len : (List.zipWith max acc r).length = E := by
      rw [List.length_zipWith, h1, h3 r (by simp), min_self]
    have hstep_pos : ∀ a ∈ List.zipWith max acc r, 0 < a := by
      intro a ha
      rcases mem_zipWith _ _ _ _ ha with ⟨x, hx, y, _, rfl⟩
      exact lt_of_lt_of_le (h2 x hx) (le_max_left x y)
    exact ih (List.zipWith max acc r) hstep_len hstep_pos
      (fun w hw => h3 w (by simp [hw]))

theorem foldl_max_const (E : ℕ) (v : ℚ) :
    ∀ (rows : List (List ℚ)), (∀ r ∈ rows, r = List.replicate E v) →
      rows.foldl (List.zipWith max) (List.replicate E v) = List.replicate E v := by
  intro rows
  induction rows with
  | nil => intro _; rfl
  | cons r rs ih =>
    intro h
    show rs.foldl (List.zipWith max) (List.zipWith max (List.replicate E v) r)
      = List.replicate E v
    rw [h r (by simp), zipWith_max_replicate_self]
    exact ih (fun w hw => h w (by simp [hw]))

/-- When every valid entry is strictly positive, the zeroed padded positions
never win the elementwise time-axis maximum. -/
theorem reduce_max0_maskSeq (E : ℕ) (seq : List (List ℚ)) (len : ℕ)
    (h1 : 1 ≤ len) (hlen : len ≤ seq.length) (hw : ∀ r ∈ seq, r.length = E)
    (hpos : ∀ r ∈ seq.take len, ∀ a ∈ r, 0 < a) :
    reduce_max0 (maskSeq seq len) = reduce_max0 (seq.take len) := by
  rw [maskSeq_eq_take_append seq len hlen]
  have htl : (seq.take len).length = len := by
    rw [List.length_take]; omega
  cases hA : seq.take len with
  | nil => rw [hA] at htl; simp at htl; omega
  | cons a A1 =>
    show (A1 ++ (seq.drop len).map (fun r : List ℚ => r.map (· * 0))).foldl
        (List.zipWith max) a = A1.foldl (List.zipWith max) a
    rw [List.foldl_append]
    have hwA : ∀ r ∈ A1, r.length = E := fun r hr =>
      hw r (List.take_subset len seq (by rw [hA]; simp [hr]))
    have haE : a.length = E := hw a (List.take_subset len seq (by rw [hA]; simp))
    have hapos : ∀ x ∈ a, 0 < x := hpos a (by rw [hA]; simp)
    obtain ⟨hflen, hfpos⟩ := foldl_max_props E A1 a haE hapos hwA
    apply foldl_max_zeros E _ _ hflen (fun x hx => (hfpos x hx).le)
    intro z hz
    rcases List.mem_map.mp hz with ⟨r, hr, rfl⟩
    rw [map_mul_zero, hw r (List.mem_of_mem_drop hr)]

/-- C7: `SequencePoolingLayer(mode=max)` returns the elementwise time-axis max
of the zero-masked sequence with a singleton time dimension; with all valid
entries strictly positive, no zeroed padded position is selected; an
all-same-positive-value valid prefix yields exactly that value; and a zeroed
padded position can outrank genuinely negative valid values. -/
theorem C7_max_pooling (sm : Bool) (l : SequencePoolingLayer)
    (hl : SequencePoolingLayer.init "max" sm = Except.ok l)
    (E : ℕ) (seq : List (List ℚ)) (len : ℕ)
    (h1 : 1 ≤ len) (hlen : len ≤ seq.length) (hw : ∀ r ∈ seq, r.length = E)
    (hpos : ∀ r ∈ seq.take len, ∀ a ∈ r, 0 < a) :
    SequencePoolingLayer.callRow l E seq len = [reduce_max0 (maskSeq seq len)]
    ∧ SequencePoolingLayer.callRow l E seq len = [reduce_max0 (seq.take len)]
    ∧ (∀ v : ℚ, (∀ r ∈ seq.take len, r = List.replicate E v) →
        SequencePoolingLayer.callRow l E seq len = [List.replicate E v])
    ∧ (SequencePoolingLayer.callRow ⟨"max", false, 1 / 100000000⟩ 1 [[-1], [-5]] 1
        = [[0]] ∧ ((-1 : ℚ) < 0)) := by
  have hl1 : l = ⟨"max", sm, 1 / 100000000⟩ := by
    unfold SequencePoolingLayer.init at hl
    rw [if_pos (by decide)] at hl
    cases hl; rfl
  subst hl1
  have h2 : SequencePoolingLayer.callRow ⟨"max", sm, 1 / 100000000⟩ E seq len
      = [reduce_max0 (seq.take len)] := by
    rw [callRow_max_eq, reduce_max0_maskSeq E seq len h1 hlen hw hpos]
  have hconc : SequencePoolingLayer.callRow ⟨"max", false, 1 / 100000000⟩ 1
      [[-1], [-5]] 1 = [[0]] := by
    have hmask : maskSeq [[-1], [-5]] 1 = [[-1], [0]] := by
      norm_num [maskSeq, sequence_mask, List.range_succ]
    rw [callRow_max_eq, hmask]
    show [[max (-1 : ℚ) 0]] = [[0]]
    norm_num
  refine ⟨callRow_max_eq sm _ E seq len, h2, ?_, hconc, by norm_num⟩
  intro v hv
  rw [h2]
  have hne : seq.take len ≠ [] := by
    intro hnil
    have := List.length_take len seq  -- handled below
    rw [hnil] at this
    simp at this
    omega
  cases hA : seq.take len with
  | nil => exact absurd hA hne
  | cons a A1 =>
    have hva := hv a (by rw [hA]; simp)
    show [(A1.foldl (List.zipWith max) a)] = _
    rw [hva, foldl_max_const E v A1 (fun w hw1 => hv w (by rw [hA]; simp [hw1]))]

/-- C1 witness: the spec's end-to-end scenario, specialised to one row of
width 1: `seq = [[2],[7]]`, `length = 1`, `mode = sum`. -/
theorem C1_sum_pooling_exact_witness :
    SequencePoolingLayer.init "sum" false = Except.ok ⟨"sum", false, 1 / 100000000⟩
    ∧ SequencePoolingLayer.callRow ⟨"sum", false, 1 / 100000000⟩ 1 [[2], [7]] 1
      = [reduce_sum0 1 ([[(2 : ℚ)], [7]].take 1)] := by
  have hinit : SequencePoolingLayer.init "sum" false
      = Except.ok ⟨"sum", false, 1 / 100000000⟩ := by
    unfold SequencePoolingLayer.init
    rw [if_pos (by decide)]
  exact ⟨hinit,
    (C1_sum_pooling_exact false _ hinit 1 [[2], [7]] 1 (by decide) (by decide)).1⟩

/-- C7 witness: `seq = [[2],[3],[-4]]`, `length = 2`: all valid entries are
positive, and the padded `-4` is zeroed but not selected. -/
theorem C7_max_pooling_witness :
    SequencePoolingLayer.init "max" false = Except.ok ⟨"max", false, 1 / 100000000⟩
    ∧ SequencePoolingLayer.callRow ⟨"max", false, 1 / 100000000⟩ 1 [[2], [3], [-4]] 2
      = [reduce_max0 ([[(2 : ℚ)], [3], [-4]].take 2)] := by
  have hinit : SequencePoolingLayer.init "max" false
      = Except.ok ⟨"max", false, 1 / 100000000⟩ := by
    unfold SequencePoolingLayer.init
    rw [if_pos (by decide)]
  refine ⟨hinit, (C7_max_pooling false _ hinit 1 [[2], [3], [-4]] 2
    (by decide) (by decide) (by decide) ?_).2.1⟩
  intro r hr a ha
  fin_cases hr <;> fin_cases ha <;> norm_num

/-! ## BiLSTM claim theorems -/

/-- C8: `BiLSTM.call` combines the final forward/backward streams per
`merge_mode`: `fw` → forward only, `bw` → backward only, `sum` → elementwise
add, `mul` → elementwise multiply, `ave` → elementwise mean, `concat` →
concatenation along the embedding axis with width `2 * units`, `none` → the
two streams as a pair, each of width `units`. -/
theorem C8_bilstm_merge_modes (fw bw : ℕ → List (List ℚ) → List (List ℚ))
    (layers res_layers : ℕ) (inputs : List (List ℚ)) (units : ℕ)
    (hf : ∀ r ∈ (BiLSTM.loop fw bw layers res_layers inputs).1, r.length = units)
    (hb : ∀ r ∈ (BiLSTM.loop fw bw layers res_layers inputs).2, r.length = units) :
    BiLSTM.call (some "fw") fw bw layers res_layers inputs
      = some (BiOut.single (BiLSTM.loop fw bw layers res_layers inputs).1)
    ∧ BiLSTM.call (some "bw") fw bw layers res_layers inputs
      = some (BiOut.single (BiLSTM.loop fw bw layers res_layers inputs).2)
    ∧ BiLSTM.call (some "sum") fw bw layers res_layers inputs
      = some (BiOut.single (List.zipWith (List.zipWith (· + ·))
          (BiLSTM.loop fw bw layers res_layers inputs).1
          (BiLSTM.loop fw bw layers res_layers inputs).2))
    ∧ BiLSTM.call (some "mul") fw bw layers res_layers inputs
      = some (BiOut.single (List.zipWith (List.zipWith (· * ·))
          (BiLSTM.loop fw bw layers res_layers inputs).1
          (BiLSTM.loop fw bw layers res_layers inputs).2))
    ∧ BiLSTM.call (some "ave") fw bw layers res_layers inputs
      = some (BiOut.single (List.zipWith (List.zipWith (fun a b => (a + b) / 2))
          (BiLSTM.loop fw bw layers res_layers inputs).1
          (BiLSTM.loop fw bw layers res_layers inputs).2))
    ∧ BiLSTM.call (some "concat") fw bw layers res_layers inputs
      = some (BiOut.single (List.zipWith (· ++ ·)
          (BiLSTM.loop fw bw layers res_layers inputs).1
          (BiLSTM.loop fw bw layers res_layers inputs).2))
    ∧ (∀ r ∈ List.zipWith (· ++ ·) (BiLSTM.loop fw bw layers res_layers inputs).1
          (BiLSTM.loop fw bw layers res_layers inputs).2, r.length = 2 * units)
    ∧ BiLSTM.call none fw bw layers res_layers inputs
      = some (BiOut.pair (BiLSTM.loop fw bw layers res_layers inputs).1
          (BiLSTM.loop fw bw layers res_layers inputs).2) := by
  refine ⟨by simp [BiLSTM.call], by simp [BiLSTM.call], by simp [BiLSTM.call, addT],
    by simp [BiLSTM.call, mulT], ?_, by simp [BiLSTM.call], ?_, by simp [BiLSTM.call]⟩
  · simp [BiLSTM.call, addT, List.map_zipWith]
  · intro r hr
    rcases mem_zipWith _ _ _ _ hr with ⟨a, ha, b, hb1, rfl⟩
    rw [List.length_append, hf a ha, hb b hb1, two_mul]

/-- C8 witness: one layer, no residuals, concrete streams of width 2. -/
theorem C8_bilstm_merge_modes_witness :
    (∀ r ∈ (BiLSTM.loop (fun _ _ => [[1, 2]]) (fun _ _ => [[3, 4]]) 1 0 [[5, 6]]).1,
      r.length = 2)
    ∧ (∀ r ∈ (BiLSTM.loop (fun _ _ => [[1, 2]]) (fun _ _ => [[3, 4]]) 1 0 [[5, 6]]).2,
      r.length = 2)
    ∧ BiLSTM.call (some "concat") (fun _ _ => [[1, 2]]) (fun _ _ => [[3, 4]]) 1 0 [[5, 6]]
      = some (BiOut.single (List.zipWith (· ++ ·)
          (BiLSTM.loop (fun _ _ => [[1, 2]]) (fun _ _ => [[3, 4]]) 1 0 [[5, 6]]).1
          (BiLSTM.loop (fun _ _ => [[1, 2]]) (fun _ _ => [[3, 4]]) 1 0 [[5, 6]]).2))
    ∧ (∀ r ∈ List.zipWith (· ++ ·)
          (BiLSTM.loop (fun _ _ => [[1, 2]]) (fun _ _ => [[3, 4]]) 1 0 [[5, 6]]).1
          (BiLSTM.loop (fun _ _ => [[1, 2]]) (fun _ _ => [[3, 4]]) 1 0 [[5, 6]]).2,
        r.length = 2 * 2) :=
  ⟨by decide, by decide,
   (C8_bilstm_merge_modes (fun _ _ => [[1, 2]]) (fun _ _ => [[3, 4]]) 1 0 [[5, 6]] 2
     (by decide) (by decide)).2.2.2.2.2.1,
   (C8_bilstm_merge_modes (fun _ _ => [[1, 2]]) (fun _ _ => [[3, 4]]) 1 0 [[5, 6]] 2
     (by decide) (by decide)).2.2.2.2.2.2.1⟩

/-! ## Constructor-validation claim theorems -/

/-- C9: `SequencePoolingLayer.__init__` succeeds exactly on
`mode ∈ {sum, mean, max}` and raises otherwise; `BiLSTM.__init__` succeeds
exactly on `merge_mode ∈ {fw, bw, sum, mul, ave, concat, None}` and raises
otherwise. -/
theorem C9_constructor_validation :
    (∀ (mode : String) (sm : Bool),
      (∃ l, SequencePoolingLayer.init mode sm = Except.ok l)
        ↔ mode ∈ ["sum", "mean", "max"])
    ∧ (∀ (mode : String) (sm : Bool),
      (∃ e, SequencePoolingLayer.init mode sm = Except.error e)
        ↔ mode ∉ ["sum", "mean", "max"])
    ∧ (∀ (u la re : ℕ) (d : ℚ) (mm : Option String),
      (∃ l, BiLSTM.init u la re d mm = Except.ok l)
        ↔ mm ∈ [some "fw", some "bw", some "sum", some "mul", some "ave",
                some "concat", none])
    ∧ (∀ (u la re : ℕ) (d : ℚ) (mm : Option String),
      (∃ e, BiLSTM.init u la re d mm = Except.error e)
        ↔ mm ∉ [some "fw", some "bw", some "sum", some "mul", some "ave",
                some "concat", none]) := by
  refine ⟨fun mode sm => ?_, fun mode sm => ?_, fun u la re d mm => ?_,
    fun u la re d mm => ?_⟩ <;>
    [skip; skip; skip; skip] <;>
    first
    | (by_cases h : mode ∈ ["sum", "mean", "max"] <;>
        simp [SequencePoolingLayer.init, h])
    | (by_cases h : mm ∈ [some "fw", some "bw", some "sum", some "mul", some "ave",
        some "concat", none] <;> simp [BiLSTM.init, h])

/-- C10: `AttentionSequencePoolingLayerv2` validates nothing: its constructor
accepts any `sim_type`, its `build` accepts any input shape, and a call with a
`sim_type` outside `{nn, mat, cos}` fails at call time with the
unbound-local-variable error, not a configuration error. -/
theorem C10_v2_no_validation :
    (∀ (hs : List ℕ) (act : String) (wn : Bool) (st : String),
      AttentionSequencePoolingLayerv2.init hs act wn st = Except.ok ⟨hs, act, wn, st⟩)
    ∧ (∀ (l : AttentionSequencePoolingLayerv2) (shape : List (List ℕ)),
      AttentionSequencePoolingLayerv2.build l shape = Except.ok ())
    ∧ (∀ (T E : ℕ) (st : String) (wn : Bool)
        (nn mat : (Fin 1 → Fin E → ℝ) → (Fin T → Fin E → ℝ) → Fin T → ℝ)
        (q : Fin 1 → Fin E → ℝ) (k : Fin T → Fin E → ℝ) (len : ℕ),
        st ∉ ["nn", "mat", "cos"] →
        AttentionSequencePoolingLayerv2.callRow st wn nn mat q k len
          = Except.error CallError.unboundLocalVariable) := by
  refine ⟨fun _ _ _ _ => rfl, fun _ _ => rfl, ?_⟩
  intro T E st wn nn mat q k len h
  simp only [List.mem_cons, List.not_mem_nil, or_false, not_or] at h
  obtain ⟨h1, h2, h3⟩ := h
  simp [AttentionSequencePoolingLayerv2.callRow, h1, h2, h3]

/-- C10 witness: `sim_type = "mul"` (the branch left commented out in the
source) raises the unbound-local error at call time. -/
theorem C10_v2_no_validation_witness :
    ("mul" ∉ ["nn", "mat", "cos"])
    ∧ @AttentionSequencePoolingLayerv2.callRow 1 1 "mul" true
        (fun _ _ _ => 0) (fun _ _ _ => 0) (fun _ _ => 0) (fun _ _ => 0) 0
      = Except.error CallError.unboundLocalVariable :=
  ⟨by decide, C10_v2_no_validation.2.2 1 1 "mul" true
    (fun _ _ _ => 0) (fun _ _ _ => 0) (fun _ _ => 0) (fun _ _ => 0) 0 (by decide)⟩

/-! ## Config round-trip claim theorems -/

/-- C4 counterexample: `AttentionSequencePoolingLayerv2` constructed with
`sim_type = "cos"` yields a `get_config` with no `sim_type` entry at all, so
the config does not contain every constructor argument. -/
theorem C4_counterexample :
    AttentionSequencePoolingLayerv2.init [80, 40] "sigmoid" true "cos"
      = Except.ok ⟨[80, 40], "sigmoid", true, "cos"⟩
    ∧ (AttentionSequencePoolingLayerv2.get_config
        ⟨[80, 40], "sigmoid", true, "cos"⟩).lookup "sim_type" = none :=
  ⟨rfl, rfl⟩

/-- C4 (amended): after construction, `get_config` reproduces every
constructor argument exactly — for `SequencePoolingLayer` (mode,
supports_masking), `AttentionSequencePoolingLayer` (hidden_size, activation,
weight_normalization, supports_masking) and `BiLSTM` (units, layers,
res_layers, dropout, merge_mode); for `AttentionSequencePoolingLayerv2` it
reproduces hidden_size, activation and weight_normalization but omits
`sim_type` entirely. -/
theorem C4_config_roundtrip :
    (∀ (mode : String) (sm : Bool) (l : SequencePoolingLayer),
      SequencePoolingLayer.init mode sm = Except.ok l →
        l.get_config.lookup "mode" = some (CVal.s mode)
        ∧ l.get_config.lookup "supports_masking" = some (CVal.b sm))
    ∧ (∀ (hs : List ℕ) (act : String) (wn sm : Bool)
        (l : AttentionSequencePoolingLayer),
      AttentionSequencePoolingLayer.init hs act wn sm = Except.ok l →
        l.get_config.lookup "hidden_size" = some (CVal.ns hs)
        ∧ l.get_config.lookup "activation" = some (CVal.s act)
        ∧ l.get_config.lookup "weight_normalization" = some (CVal.b wn)
        ∧ l.get_config.lookup "supports_masking" = some (CVal.b sm))
    ∧ (∀ (u la re : ℕ) (d : ℚ) (mm : Option String) (l : BiLSTM),
      BiLSTM.init u la re d mm = Except.ok l →
        l.get_config.lookup "units" = some (CVal.n u)
        ∧ l.get_config.lookup "layers" = some (CVal.n la)
        ∧ l.get_config.lookup "res_layers" = some (CVal.n re)
        ∧ l.get_config.lookup "dropout" = some (CVal.q d)
        ∧ l.get_config.lookup "merge_mode" = some (CVal.os mm))
    ∧ (∀ (hs : List ℕ) (act : String) (wn : Bool) (st : String)
        (l : AttentionSequencePoolingLayerv2),
      AttentionSequencePoolingLayerv2.init hs act wn st = Except.ok l →
        l.get_config.lookup "hidden_size" = some (CVal.ns hs)
        ∧ l.get_config.lookup "activation" = some (CVal.s act)
        ∧ l.get_config.lookup "weight_normalization" = some (CVal.b wn)
        ∧ l.get_config.lookup "sim_type" = none) := by
  refine ⟨?_, ?_, ?_, ?_⟩
  · intro mode sm l h
    unfold SequencePoolingLayer.init at h
    split at h
    · cases h; exact ⟨rfl, rfl⟩
    · exact Except.noConfusion h
  · intro hs act wn sm l h
    cases h; exact ⟨rfl, rfl, rfl, rfl⟩
  · intro u la re d mm l h
    unfold BiLSTM.init at h
    split at h
    · cases h; exact ⟨rfl, rfl, rfl, rfl, rfl⟩
    · exact Except.noConfusion h
  · intro hs act wn st l h
    cases h; exact ⟨rfl, rfl, rfl, rfl⟩

/-- C4 witness: concrete constructions for three of the layers, including the
`sim_type` omission. -/
theorem C4_config_roundtrip_witness :
    SequencePoolingLayer.init "sum" true = Except.ok ⟨"sum", true, 1 / 100000000⟩
    ∧ (SequencePoolingLayer.get_config ⟨"sum", true, 1 / 100000000⟩).lookup "mode"
      = some (CVal.s "sum")
    ∧ BiLSTM.init 4 2 1 (1 / 5) (some "concat")
      = Except.ok ⟨4, 2, 1, 1 / 5, some "concat"⟩
    ∧ (BiLSTM.get_config ⟨4, 2, 1, 1 / 5, some "concat"⟩).lookup "merge_mode"
      = some (CVal.os (some "concat"))
    ∧ (AttentionSequencePoolingLayerv2.get_config
        ⟨[80, 40], "dice", false, "nn"⟩).lookup "sim_type" = none := by
  have h1 : SequencePoolingLayer.init "sum" true
      = Except.ok ⟨"sum", true, 1 / 100000000⟩ := by
    unfold SequencePoolingLayer.init
    rw [if_pos (by decide)]
  have h2 : BiLSTM.init 4 2 1 (1 / 5) (some "concat")
      = Except.ok ⟨4, 2, 1, 1 / 5, some "concat"⟩ := by
    unfold BiLSTM.init
    rw [if_pos (by decide)]
  exact ⟨h1, (C4_config_roundtrip.1 "sum" true _ h1).1, h2,
    (C4_config_roundtrip.2.2.1 4 2 1 (1 / 5) (some "concat") _ h2).2.2.2.2,
    (C4_config_roundtrip.2.2.2 [80, 40] "dice" false "nn" _ rfl).2.2.2⟩

/-! ## Softmax lemmas -/

theorem softmaxRow_sum_one {T : ℕ} (hT : 0 < T) (x : Fin T → ℝ) :
    ∑ t, softmaxRow x t = 1 := by
  have hne : (Finset.univ : Finset (Fin T)).Nonempty := by
    have : Nonempty (Fin T) := Fin.pos_iff_nonempty.mp hT
    exact Finset.univ_nonempty
  have hS : 0 < ∑ u, Real.exp (x u) :=
    Finset.sum_pos (fun u _ => Real.exp_pos (x u)) hne
  unfold softmaxRow
  rw [← Finset.sum_div, div_self (ne_of_gt hS)]

theorem softmaxRow_pos {T : ℕ} (x : Fin T → ℝ) (t : Fin T) : 0 < softmaxRow x t := by
  have hS : 0 < ∑ u, Real.exp (x u) :=
    Finset.sum_pos (fun u _ => Real.exp_pos (x u)) ⟨t, Finset.mem_univ t⟩
  exact div_pos (Real.exp_pos _) hS

theorem maskedScoreRow_valid (wn : Bool) {T : ℕ} (len : ℕ) (score : Fin T → ℝ)
    (t : Fin T) (h : t.val < len) : maskedScoreRow wn len score t = score t := by
  simp [maskedScoreRow, key_maskRow, h]

theorem maskedScoreRow_invalid (wn : Bool) {T : ℕ} (len : ℕ) (score : Fin T → ℝ)
    (t : Fin T) (h : ¬ t.val < len) :
    maskedScoreRow wn len score t = if wn then -(2 ^ 32) + 1 else 0 := by
  cases wn <;> simp [maskedScoreRow, key_maskRow, paddingsRow, h]

/-- C2 (amended): in `AttentionSequencePoolingLayer`, masked positions receive
score `-2^32+1` when `weight_normalization` and `0` otherwise; softmax is
applied iff `weight_normalization`; and — provided the row has at least one
valid position and the uninterpreted scoring network's valid scores are at
least `-2^31` — each invalid position's softmax weight is at most machine
epsilon and the weights on valid positions sum to `1` up to `T·ε`. -/
theorem C2_attention_weights (T len : ℕ) (score : Fin T → ℝ) (t0 : Fin T)
    (h0 : t0.val < len) (hbdd : ∀ t : Fin T, t.val < len → -(2 ^ 31) ≤ score t) :
    (∀ t : Fin T, ¬ t.val < len →
      maskedScoreRow true len score t = -(2 ^ 32) + 1
      ∧ maskedScoreRow false len score t = 0)
    ∧ AttentionSequencePoolingLayer.attWeightsRow true len score
        = softmaxRow (maskedScoreRow true len score)
    ∧ AttentionSequencePoolingLayer.attWeightsRow false len score
        = maskedScoreRow false len score
    ∧ (∀ t : Fin T, ¬ t.val < len →
        AttentionSequencePoolingLayer.attWeightsRow true len score t ≤ machineEps)
    ∧ (∑ t ∈ Finset.univ.filter (fun t : Fin T => t.val < len),
          AttentionSequencePoolingLayer.attWeightsRow true len score t)
      + (∑ t ∈ Finset.univ.filter (fun t : Fin T => ¬ t.val < len),
          AttentionSequencePoolingLayer.attWeightsRow true len score t) = 1
    ∧ 1 - T * machineEps
        ≤ ∑ t ∈ Finset.univ.filter (fun t : Fin T => t.val < len),
            AttentionSequencePoolingLayer.attWeightsRow true len score t
    ∧ (∑ t ∈ Finset.univ.filter (fun t : Fin T => t.val < len),
          AttentionSequencePoolingLayer.attWeightsRow true len score t) ≤ 1 := by
  have hw : AttentionSequencePoolingLayer.attWeightsRow true len score
      = softmaxRow (maskedScoreRow true len score) := rfl
  have hw0 : AttentionSequencePoolingLayer.attWeightsRow false len score
      = maskedScoreRow false len score := rfl
  -- the softmax denominator dominates the valid score at t0
  have hSge : Real.exp (score t0)
      ≤ ∑ u, Real.exp (maskedScoreRow true len score u) := by
    have := Finset.single_le_sum
      (f := fun u => Real.exp (maskedScoreRow true len score u))
      (fun u _ => (Real.exp_pos _).le) (Finset.mem_univ t0)
    simpa only [maskedScoreRow_valid true len score t0 h0] using this
  have hepos : (0 : ℝ) < Real.exp (score t0) := Real.exp_pos _
  have hinv : ∀ t : Fin T, ¬ t.val < len →
      AttentionSequencePoolingLayer.attWeightsRow true len score t ≤ machineEps := by
    intro t ht
    rw [hw]
    show Real.exp (maskedScoreRow true len score t)
        / (∑ u, Real.exp (maskedScoreRow true len score u)) ≤ machineEps
    calc Real.exp (maskedScoreRow true len score t)
        / (∑ u, Real.exp (maskedScoreRow true len score u))
        ≤ Real.exp (maskedScoreRow true len score t) / Real.exp (score t0) :=
          div_le_div_of_nonneg_left (Real.exp_pos _).le hepos hSge
      _ = Real.exp (maskedScoreRow true len score t - score t0) :=
          (Real.exp_sub _ _).symm
      _ ≤ Real.exp (-(2 ^ 31 - 1)) := by
          apply Real.exp_le_exp.mpr
          rw [maskedScoreRow_invalid true len score t ht]
          simp only [if_pos rfl]
          have hb := hbdd t0 h0
          norm_num
          linarith
      _ ≤ machineEps := by
          rw [Real.exp_neg]
          have h1 : ((2 : ℝ) ^ 31 - 1) + 1 ≤ Real.exp (2 ^ 31 - 1) :=
            Real.add_one_le_exp _
          have h2 : (Real.exp ((2 : ℝ) ^ 31 - 1))⁻¹ ≤ (((2 : ℝ) ^ 31 - 1) + 1)⁻¹ :=
            inv_anti₀ (by norm_num) h1
          calc (Real.exp ((2 : ℝ) ^ 31 - 1))⁻¹
              ≤ (((2 : ℝ) ^ 31 - 1) + 1)⁻¹ := h2
            _ ≤ machineEps := by unfold machineEps; norm_num
  have htotal : (∑ t ∈ Finset.univ.filter (fun t : Fin T => t.val < len),
        AttentionSequencePoolingLayer.attWeightsRow true len score t)
      + (∑ t ∈ Finset.univ.filter (fun t : Fin T => ¬ t.val < len),
        AttentionSequencePoolingLayer.attWeightsRow true len score t) = 1 := by
    rw [Finset.sum_filter_add_sum_filter_not, hw,
      softmaxRow_sum_one t0.pos (maskedScoreRow true len score)]
  have hinvsum : (∑ t ∈ Finset.univ.filter (fun t : Fin T => ¬ t.val < len),
        AttentionSequencePoolingLayer.attWeightsRow true len score t)
      ≤ T * machineEps := by
    calc (∑ t ∈ Finset.univ.filter (fun t : Fin T => ¬ t.val < len),
          AttentionSequencePoolingLayer.attWeightsRow true len score t)
        ≤ (Finset.univ.filter (fun t : Fin T => ¬ t.val < len)).card • machineEps :=
          Finset.sum_le_card_nsmul _ _ _
            (fun t ht => hinv t (Finset.mem_filter.mp ht).2)
      _ = ((Finset.univ.filter (fun t : Fin T => ¬ t.val < len)).card : ℝ)
            * machineEps := nsmul_eq_mul _ _
      _ ≤ T * machineEps := by
          have hcard : (Finset.univ.filter (fun t : Fin T => ¬ t.val < len)).card ≤ T := by
            calc (Finset.univ.filter (fun t : Fin T => ¬ t.val < len)).card
                ≤ (Finset.univ : Finset (Fin T)).card := Finset.card_filter_le _ _
              _ = T := by simp
          have heps : (0 : ℝ) ≤ machineEps := by unfold machineEps; norm_num
          exact mul_le_mul_of_nonneg_right (by exact_mod_cast hcard) heps
  have hinvpos : (0 : ℝ) ≤ ∑ t ∈ Finset.univ.filter (fun t : Fin T => ¬ t.val < len),
      AttentionSequencePoolingLayer.attWeightsRow true len score t :=
    Finset.sum_nonneg (fun t _ => by rw [hw]; exact (softmaxRow_pos _ t).le)
  refine ⟨fun t ht => ?_, hw, hw0, hinv, htotal, by linarith, by linarith⟩
  constructor
  · rw [maskedScoreRow_invalid true len score t ht]; simp
  · rw [maskedScoreRow_invalid false len score t ht]; simp

/-- C2 counterexample: the claim as stated fails for arbitrary rows and
uninterpreted scores.  (1) For a row with zero valid length, softmax spreads
weight `1/2 > ε` uniformly over the two invalid positions.  (2) Even with one
valid position, a scoring-network output of `-2^33` at the valid position gives
an invalid position weight above `1/2 > ε`. -/
theorem C2_counterexample :
    (¬ ((0 : Fin 2).val < 0)
      ∧ AttentionSequencePoolingLayer.attWeightsRow true 0 (fun _ : Fin 2 => (0 : ℝ)) 0
        = 1 / 2
      ∧ machineEps < 1 / 2)
    ∧ (¬ ((1 : Fin 2).val < 1)
      ∧ machineEps < AttentionSequencePoolingLayer.attWeightsRow true 1
          (fun _ : Fin 2 => -(2 ^ 33 : ℝ)) 1) := by
  have heps : machineEps < 1 / 2 := by unfold machineEps; norm_num
  constructor
  · refine ⟨by decide, ?_, heps⟩
    have hm : maskedScoreRow true 0 (fun _ : Fin 2 => (0 : ℝ))
        = fun _ => -(2 ^ 32) + 1 := by
      funext t
      exact maskedScoreRow_invalid true 0 _ t (Nat.not_lt_zero _)
    show softmaxRow (maskedScoreRow true 0 (fun _ : Fin 2 => (0 : ℝ))) 0 = 1 / 2
    rw [hm]
    unfold softmaxRow
    rw [Fin.sum_univ_two]
    have hne : Real.exp (-(2 ^ 32 : ℝ) + 1) + Real.exp (-(2 ^ 32 : ℝ) + 1) ≠ 0 := by
      positivity
    field_simp
    ring
  · refine ⟨by decide, ?_⟩
    have hm0 : maskedScoreRow true 1 (fun _ : Fin 2 => -(2 ^ 33 : ℝ)) 0
        = -(2 ^ 33 : ℝ) := maskedScoreRow_valid true 1 _ 0 (by decide)
    have hm1 : maskedScoreRow true 1 (fun _ : Fin 2 => -(2 ^ 33 : ℝ)) 1
        = -(2 ^ 32) + 1 := by
      rw [maskedScoreRow_invalid true 1 _ 1 (by decide)]
      simp
    have hval : AttentionSequencePoolingLayer.attWeightsRow true 1
        (fun _ : Fin 2 => -(2 ^ 33 : ℝ)) 1
        = Real.exp (-(2 ^ 32 : ℝ) + 1)
          / (Real.exp (-(2 ^ 33 : ℝ)) + Real.exp (-(2 ^ 32 : ℝ) + 1)) := by
      show softmaxRow (maskedScoreRow true 1 (fun _ : Fin 2 => -(2 ^ 33 : ℝ))) 1 = _
      unfold softmaxRow
      rw [Fin.sum_univ_two, hm0, hm1]
    rw [hval]
    have hle : Real.exp (-(2 ^ 33 : ℝ)) ≤ Real.exp (-(2 ^ 32 : ℝ) + 1) :=
      Real.exp_le_exp.mpr (by norm_num)
    have hp : (0 : ℝ) < Real.exp (-(2 ^ 32 : ℝ) + 1) := Real.exp_pos _
    have hdenpos : (0 : ℝ) < Real.exp (-(2 ^ 33 : ℝ)) + Real.exp (-(2 ^ 32 : ℝ) + 1) := by
      positivity
    have hhalf : (1 : ℝ) / 2
        ≤ Real.exp (-(2 ^ 32 : ℝ) + 1)
          / (Real.exp (-(2 ^ 33 : ℝ)) + Real.exp (-(2 ^ 32 : ℝ) + 1)) := by
      rw [div_le_div_iff₀ (by norm_num) hdenpos]
      linarith
    linarith

/-- C2 witness: row of length `T = 2` with one valid position and raw score 0. -/
theorem C2_attention_weights_witness :
    ((0 : Fin 2).val < 1
      ∧ (∀ t : Fin 2, t.val < 1 → -(2 ^ 31 : ℝ) ≤ (fun _ : Fin 2 => (0 : ℝ)) t))
    ∧ (∀ t : Fin 2, ¬ t.val < 1 →
        AttentionSequencePoolingLayer.attWeightsRow true 1 (fun _ : Fin 2 => (0 : ℝ)) t
          ≤ machineEps) :=
  ⟨⟨by decide, fun t _ => by norm_num⟩,
   (C2_attention_weights 2 1 (fun _ : Fin 2 => (0 : ℝ)) 0 (by decide)
     (fun t _ => by norm_num)).2.2.2.1⟩

/-- C5: `AttentionSequencePoolingLayerv2` returns the attention-score tensor
itself — masked fill, then scaling by `1/sqrt(embedding_dim)`, then optional
softmax, in that order — and no `1/sqrt(E)` scaling step exists in
`AttentionSequencePoolingLayer`: its unnormalized weights pass valid scores
through unchanged, and its output is the weighted sum with `keys`, which the
v2 output is not. -/
theorem C5_v2_scaled_score_tensor (wn : Bool) (T E : ℕ) (score : Fin T → ℝ)
    (len : ℕ) :
    AttentionSequencePoolingLayerv2.postScoreRow wn E score len
      = (if wn then softmaxRow (fun t => maskedScoreRow wn len score t / Real.sqrt E)
         else fun t => maskedScoreRow wn len score t / Real.sqrt E)
    ∧ (∀ t : Fin T, ¬ t.val < len →
        maskedScoreRow wn len score t / Real.sqrt E
          = (if wn then -(2 ^ 32) + 1 else 0) / Real.sqrt E)
    ∧ (∀ t : Fin T, t.val < len →
        maskedScoreRow wn len score t / Real.sqrt E = score t / Real.sqrt E
        ∧ AttentionSequencePoolingLayer.attWeightsRow false len score t = score t)
    ∧ AttentionSequencePoolingLayerv2.postScoreRow false 4 (fun _ : Fin 1 => (1 : ℝ)) 1 0
      = 1 / 2
    ∧ AttentionSequencePoolingLayer.attWeightsRow false 1 (fun _ : Fin 1 => (1 : ℝ)) 0
      = 1
    ∧ AttentionSequencePoolingLayerv2.postScoreRow false 1 (fun _ : Fin 1 => (1 : ℝ)) 1
      ≠ AttentionSequencePoolingLayer.callRow false 1 (fun _ : Fin 1 => (1 : ℝ))
          ((fun _ _ => (2 : ℝ)) : Fin 1 → Fin 1 → ℝ) := by
  have hL : AttentionSequencePoolingLayerv2.postScoreRow false 1
      (fun _ : Fin 1 => (1 : ℝ)) 1 0 = 1 := by
    show maskedScoreRow false 1 (fun _ : Fin 1 => (1 : ℝ)) 0 / Real.sqrt (1 : ℕ) = 1
    rw [maskedScoreRow_valid false 1 _ 0 (by decide)]
    norm_num
  have hR : AttentionSequencePoolingLayer.callRow false 1 (fun _ : Fin 1 => (1 : ℝ))
      ((fun _ _ => (2 : ℝ)) : Fin 1 → Fin 1 → ℝ) 0 = 2 := by
    show (∑ t : Fin 1, AttentionSequencePoolingLayer.attWeightsRow false 1
        (fun _ : Fin 1 => (1 : ℝ)) t * 2) = 2
    rw [Fin.sum_univ_one]
    show maskedScoreRow false 1 (fun _ : Fin 1 => (1 : ℝ)) 0 * 2 = 2
    rw [maskedScoreRow_valid false 1 _ 0 (by decide)]
    norm_num
  refine ⟨rfl, fun t ht => by rw [maskedScoreRow_invalid wn len score t ht], ?_, ?_, ?_, ?_⟩
  · intro t ht
    exact ⟨by rw [maskedScoreRow_valid wn len score t ht],
      by show maskedScoreRow false len score t = score t;
         exact maskedScoreRow_valid false len score t ht⟩
  · show maskedScoreRow false 1 (fun _ : Fin 1 => (1 : ℝ)) 0 / Real.sqrt (4 : ℕ) = 1 / 2
    rw [maskedScoreRow_valid false 1 _ 0 (by decide)]
    have h4 : Real.sqrt ((4 : ℕ) : ℝ) = 2 := by
      rw [show (((4 : ℕ) : ℝ)) = 2 ^ 2 by norm_num, Real.sqrt_sq (by norm_num : (0 : ℝ) ≤ 2)]
    rw [h4]
  · show maskedScoreRow false 1 (fun _ : Fin 1 => (1 : ℝ)) 0 = 1
    exact maskedScoreRow_valid false 1 _ 0 (by decide)
  · intro h
    have h0 := congrFun h 0
    rw [hL, hR] at h0
    norm_num at h0

/-- C5 witness: concrete instantiation of the masked-then-scaled identity at an
invalid position. -/
theorem C5_v2_scaled_score_tensor_witness :
    ¬ ((1 : Fin 2).val < 1)
    ∧ maskedScoreRow true 1 (fun _ : Fin 2 => (0 : ℝ)) 1 / Real.sqrt (3 : ℕ)
      = (if true then -(2 ^ 32) + 1 else 0) / Real.sqrt (3 : ℕ) :=
  ⟨by decide,
   (C5_v2_scaled_score_tensor true 2 3 (fun _ : Fin 2 => (0 : ℝ)) 1).2.1 1 (by decide)⟩

/-- C3 counterexample: the cosine score of a non-zero vector with itself is
`1/E`, not `1`, because the source takes `K.mean` (not the sum) of the
normalized elementwise product: at `E = 2`, `x = (1,0)` scores `1/2 ≠ 1`. -/
theorem C3_counterexample :
    @cosine_distance 2 ![1, 0] ![1, 0] = 1 / 2 ∧ (1 / 2 : ℝ) ≠ 1 := by
  constructor
  · have hsum : (∑ i : Fin 2, (![1, 0] : Fin 2 → ℝ) i ^ 2) = 1 := by
      rw [Fin.sum_univ_two]
      norm_num
    unfold cosine_distance l2_normalizeRow
    rw [hsum, max_eq_left (by norm_num : (1 / 10 ^ 12 : ℝ) ≤ 1), Real.sqrt_one,
      Fin.sum_univ_two]
    norm_num
  · norm_num

/-- C3 (amended): `AttentionSequencePoolingLayerv2(sim_type=cos)`'s per-position
score — L2-normalize both vectors along the embedding axis, then take the mean
of their elementwise product — equals `1/embedding_dim` (not 1) for a query
against an identical key of squared norm at least the `1e-12` normalizer floor,
and equals `0` for an orthogonal key. -/
theorem C3_cosine_scores (E : ℕ) (x y : Fin E → ℝ) :
    (1 ≤ E → (1 / 10 ^ 12 : ℝ) ≤ ∑ i, x i ^ 2 → cosine_distance x x = 1 / E)
    ∧ ((∑ e, x e * y e) = 0 → cosine_distance x y = 0) := by
  constructor
  · intro hE hS
    have hS0 : (0 : ℝ) < ∑ i, x i ^ 2 := lt_of_lt_of_le (by norm_num) hS
    have hmax : max (∑ i, x i ^ 2) (1 / 10 ^ 12) = ∑ i, x i ^ 2 := max_eq_left hS
    unfold cosine_distance l2_normalizeRow
    rw [hmax]
    have hsq : Real.sqrt (∑ i, x i ^ 2) * Real.sqrt (∑ i, x i ^ 2) = ∑ i, x i ^ 2 :=
      Real.mul_self_sqrt hS0.le
    have hterm : ∀ e, x e / Real.sqrt (∑ i, x i ^ 2)
        * (x e / Real.sqrt (∑ i, x i ^ 2)) = x e ^ 2 / ∑ i, x i ^ 2 := by
      intro e
      rw [div_mul_div_comm, hsq, sq]
    rw [Finset.sum_congr rfl (fun e _ => hterm e), ← Finset.sum_div,
      div_self (ne_of_gt hS0)]
  · intro h
    unfold cosine_distance l2_normalizeRow
    have hterm : ∀ e, x e / Real.sqrt (max (∑ i, x i ^ 2) (1 / 10 ^ 12))
        * (y e / Real.sqrt (max (∑ i, y i ^ 2) (1 / 10 ^ 12)))
        = x e * y e / (Real.sqrt (max (∑ i, x i ^ 2) (1 / 10 ^ 12))
            * Real.sqrt (max (∑ i, y i ^ 2) (1 / 10 ^ 12))) :=
      fun e => div_mul_div_comm _ _ _ _
    rw [Finset.sum_congr rfl (fun e _ => hterm e), ← Finset.sum_div, h, zero_div,
      zero_div]

/-- C3 witness: identical vectors at `E = 1` (score `1/1`), orthogonal vectors
at `E = 2` (score `0`). -/
theorem C3_cosine_scores_witness :
    ((1 : ℕ) ≤ 1
      ∧ (1 / 10 ^ 12 : ℝ) ≤ (∑ i : Fin 1, (fun _ : Fin 1 => (1 : ℝ)) i ^ 2)
      ∧ cosine_distance (fun _ : Fin 1 => (1 : ℝ)) (fun _ : Fin 1 => (1 : ℝ))
        = 1 / ((1 : ℕ) : ℝ))
    ∧ ((∑ e : Fin 2, (![(1 : ℝ), 0]) e * (![(0 : ℝ), 1]) e) = 0
      ∧ @cosine_distance 2 ![(1 : ℝ), 0] ![(0 : ℝ), 1] = 0) := by
  have hs : (1 / 10 ^ 12 : ℝ) ≤ ∑ i : Fin 1, (fun _ : Fin 1 => (1 : ℝ)) i ^ 2 := by
    rw [Fin.sum_univ_one]
    norm_num
  have ho : (∑ e : Fin 2, (![(1 : ℝ), 0]) e * (![(0 : ℝ), 1]) e) = 0 := by
    rw [Fin.sum_univ_two]
    norm_num
  exact ⟨⟨le_refl 1, hs,
    (C3_cosine_scores 1 (fun _ : Fin 1 => (1 : ℝ)) (fun _ : Fin 1 => (1 : ℝ))).1
      (le_refl 1) hs⟩,
    ⟨ho, (C3_cosine_scores 2 ![(1 : ℝ), 0] ![(0 : ℝ), 1]).2 ho⟩⟩
